import Mathlib

/-!
# Verification of the ingress-node-firewall control plane

Shallow embedding of `pkg/ebpf/ingress_node_firewall_events.go`
(package `nodefwloader`): the event-record decoder of
`ingressNodeFwEvents`, the port-range parser `parseDstPorts`, the rule
compiler `makeIngressFwRulesMap`, the attachment manager
`IngressNodeFwAttach` and its `cleanup`.

Machine integers are modelled as `Nat` (bytes are `Nat` values; all
observable arithmetic here stays far below every relevant modulus).
External collaborators — the Go standard library's CIDR parser, the
kernel interface table, the XDP attachment and pinning syscalls, and the
gopacket layer decoders — are modelled as explicit environments
(records of oracle functions) threaded through the embedded functions,
so the theorems quantify over their behaviour.  Side effects (map
writes, pins, unpins, closes, log lines) are reified as traces.
-/

namespace NodeFw

/-! ## Event header decoding (`ingressNodeFwEvents`, reader loop) -/

/-- Little-endian decoding of two consecutive bytes, as
`binary.LittleEndian.Uint16` does on a 2-byte slice. -/
def u16le (b0 b1 : Nat) : Nat := b0 + 256 * b1

/-- The `bpfEventHdrSt` header struct generated by bpf2go: interface id,
rule id, action byte and packet length. -/
structure BpfEventHdrSt where
  IfId : Nat
  RuleId : Nat
  Action : Nat
  PktLength : Nat
deriving DecidableEq

/-- Size of the event header: two `uint16`, one `uint8`, one padding
byte, one `uint16` — `unsafe.Sizeof(eventHdr) = 8`, matching the manual
byte offsets `buf[0:2]`, `buf[2:4]`, `buf[4]`, `buf[6:8]` used by the
reader loop. -/
def eventHdrSize : Nat := 8

/-- Decoding of the fixed-size event header from the front of a raw
record, exactly as the reader loop does it: `IfId` from bytes 0–1,
`RuleId` from bytes 2–3, `Action` from byte 4, `PktLength` from bytes
6–7 (byte 5 is padding and is ignored).  `none` models the
`io.ReadFull` short-read error on records shorter than the header. -/
def decodeEventHdr : List Nat → Option BpfEventHdrSt
  | b0 :: b1 :: b2 :: b3 :: b4 :: _ :: b6 :: b7 :: _ =>
      some ⟨u16le b0 b1, u16le b2 b3, b4, u16le b6 b7⟩
  | _ => none

/-- Reading the raw packet: `binary.Read` fills a buffer of `pktLen`
bytes from `record.RawSample[eventHdrSize:]`; it fails (`none`) when
fewer than `pktLen` bytes remain, and ignores any surplus bytes. -/
def readEventPacket (raw : List Nat) (pktLen : Nat) : Option (List Nat) :=
  let rest := raw.drop eventHdrSize
  if pktLen ≤ rest.length then some (rest.take pktLen) else none

/-! ## Port parsing (`parseDstPorts`) -/

/-- Numeric value of a digit string, most significant digit first (the
accumulator loop inside `strconv.ParseUint` for base 10). -/
def digitsVal (s : List Char) : Nat := s.foldl (fun a c => a * 10 + (c.toNat - 48)) 0

/-- The Go standard library's `strconv.ParseUint(s, 10, 16)`: succeeds
exactly on a nonempty string of decimal digits whose value fits in 16
bits (no sign, no spaces, no underscores in base 10); out-of-range
values are a range error, which the caller treats as failure. -/
def parseUint16 (s : List Char) : Option Nat :=
  if s ≠ [] ∧ s.all Char.isDigit = true ∧ digitsVal s < 65536 then
    some (digitsVal s)
  else none

/-- The split performed by `strings.SplitN(ports, "-", 2)` when the
string contains a hyphen: the part before the first hyphen and
everything after it. -/
def splitAtHyphen : List Char → List Char × List Char
  | [] => ([], [])
  | c :: rest =>
    if c = '-' then ([], rest)
    else
      let p := splitAtHyphen rest
      (c :: p.1, p.2)

/-- `parseDstPorts`: no hyphen means a single port, parsed as a 16-bit
unsigned integer, returned as `(port, 0)`; with a hyphen, the two pieces
of `strings.SplitN(ports, "-", 2)` are parsed as start and end port.
(When the string contains a hyphen `SplitN` always yields exactly two
pieces, so the `len(ps) != 2` branch of the source is unreachable.) -/
def parseDstPorts (ports : List Char) : Except String (Nat × Nat) :=
  if ports.contains '-' = false then
    match parseUint16 ports with
    | none => Except.error "invalid Port number"
    | some port => Except.ok (port, 0)
  else
    let ps := splitAtHyphen ports
    match parseUint16 ps.1 with
    | none => Except.error "invalid Start DstPort number"
    | some startPort =>
      match parseUint16 ps.2 with
      | none => Except.error "invalid End DstPort number"
      | some endPort => Except.ok (startPort, endPort)

/-- Whether an `Except` result is a success. -/
def exceptIsOk {ε α : Type} : Except ε α → Bool
  | .ok _ => true
  | .error _ => false

/-- Specification-side predicate: a nonempty decimal digit string whose
value is at most 65535 — the spec's "decimal integer N with
0 ≤ N ≤ 65535". -/
def isNum16 (s : List Char) : Bool :=
  decide (s ≠ []) && s.all Char.isDigit && decide (digitsVal s ≤ 65535)

/-- Specification-side grammar of accepted ports text: a bare in-range
decimal integer, or two in-range decimal integers separated by a hyphen
(decomposed at the first hyphen; since a decimal integer contains no
hyphen, this coincides with the spec's "N-M" decomposition). -/
def portsTextAccepted (s : List Char) : Bool :=
  isNum16 s ||
    (s.contains '-' && isNum16 (splitAtHyphen s).1 && isNum16 (splitAtHyphen s).2)

/-! ## Policy types and the rule compiler (`makeIngressFwRulesMap`) -/

/-- Modelled from the spec: protocol tag TCP of the policy API
(`api/v1alpha1` is not under the sources; per the spec, `ProtocolRule`
is a tagged variant over protocol values represented as strings, so
unknown tags are representable and hit the compiler's default case). -/
def ProtocolTypeTCP : String := "TCP"

/-- Modelled from the spec: protocol tag UDP of the policy API. -/
def ProtocolTypeUDP : String := "UDP"

/-- Modelled from the spec: protocol tag SCTP of the policy API. -/
def ProtocolTypeSCTP : String := "SCTP"

/-- Modelled from the spec: protocol tag ICMP of the policy API. -/
def ProtocolTypeICMP : String := "ICMP"

/-- Modelled from the spec: protocol tag ICMPv6 of the policy API. -/
def ProtocolTypeICMPv6 : String := "ICMPv6"

/-- Modelled from the spec: the Allow action value of the policy API. -/
def IngressNodeFirewallAllow : String := "Allow"

/-- Modelled from the spec: the Deny action value of the policy API. -/
def IngressNodeFirewallDeny : String := "Deny"

/-- Modelled from the spec: one policy protocol rule of the API
(rule id/order, protocol tag, ports text for TCP/UDP/SCTP, ICMP
type/code for ICMP/ICMPv6, action), flattened from the nested Go
structs `ProtocolRule`/`ICMPRule` referenced by the compiler. -/
structure IngressNodeProtocolRule where
  Order : Nat
  Protocol : String
  Ports : String
  ICMPType : Nat
  ICMPCode : Nat
  Action : String
deriving DecidableEq

/-- Modelled from the spec: a `PolicyRuleSet` — the ordered protocol
rules plus the source CIDR strings. -/
structure IngressNodeFirewallRules where
  FirewallProtocolRules : List IngressNodeProtocolRule
  SourceCIDRs : List String
deriving DecidableEq

/-- Modelled from the spec: the fixed per-value rule capacity — the
external ABI constant sizing the `Rules` array of the generated
`bpfRulesValSt`.  The bpf2go-generated file is not under the sources;
the value 100 stands in for the unspecified ABI constant, and no
theorem below depends on its particular value. -/
def maxRules : Nat := 100

/-- XDP_DROP, as the source constant `xdpDeny`. -/
def xdpDeny : Nat := 1

/-- XDP_PASS, as the source constant `xdpAllow`. -/
def xdpAllow : Nat := 2

/-- `syscall.IPPROTO_TCP`. -/
def IPPROTO_TCP : Nat := 6

/-- `syscall.IPPROTO_UDP`. -/
def IPPROTO_UDP : Nat := 17

/-- `syscall.IPPROTO_SCTP`. -/
def IPPROTO_SCTP : Nat := 132

/-- `syscall.IPPROTO_ICMP`. -/
def IPPROTO_ICMP : Nat := 1

/-- `syscall.IPPROTO_ICMPV6`. -/
def IPPROTO_ICMPV6 : Nat := 58

/-- One compiled rule entry (`bpfRuleTypeSt` generated by bpf2go). -/
structure BpfRuleTypeSt where
  RuleId : Nat
  Protocol : Nat
  DstPortStart : Nat
  DstPortEnd : Nat
  IcmpType : Nat
  IcmpCode : Nat
  Action : Nat
deriving DecidableEq

/-- The zero value of `bpfRuleTypeSt` (Go zero-initialises
`bpfRulesValSt{}`, so every array slot starts zeroed). -/
def zeroRule : BpfRuleTypeSt := ⟨0, 0, 0, 0, 0, 0, 0⟩

/-- The compiled map value (`bpfRulesValSt`): rule count plus the
fixed-capacity rule array, modelled as a list of length `maxRules`. -/
structure BpfRulesValSt where
  NumRules : Nat
  Rules : List BpfRuleTypeSt
deriving DecidableEq

/-- The LPM map key (`bpfBpfLpmIpKeySt`): prefix length plus 16 raw
address bytes. -/
structure BpfLpmIpKeySt where
  PrefixLen : Nat
  IpData : List Nat
deriving DecidableEq

/-- Termination status of one embedded Go call: normal return, error
return, or runtime panic. -/
inductive GoOutcome where
  | ok
  | err (msg : String)
  | panicked (msg : String)
deriving DecidableEq

/-- Whether a `GoOutcome` is an error return. -/
def GoOutcome.isErrB : GoOutcome → Bool
  | .err _ => true
  | _ => false

/-- Whether a `GoOutcome` is a runtime panic. -/
def GoOutcome.isPanicB : GoOutcome → Bool
  | .panicked _ => true
  | _ => false

/-- The message of the Go runtime fault raised by an out-of-range
array write such as `rules.Rules[idx]` with `idx ≥ len(rules.Rules)`. -/
def outOfRangeMsg : String := "runtime error: index out of range"

/-- The compiled entry produced by one TCP/UDP/SCTP arm of the protocol
switch: parse the ports text, then set rule id, port range and protocol
number in the (zeroed) slot. -/
def portRuleEntry (rule : IngressNodeProtocolRule) (protoNum : Nat) :
    Except String BpfRuleTypeSt :=
  match parseDstPorts rule.Ports.data with
  | .error _ =>
      .error ("Invalid Ports " ++ rule.Ports ++ " for protocol " ++ rule.Protocol)
  | .ok pr =>
      .ok { zeroRule with
              RuleId := rule.Order, DstPortStart := pr.1, DstPortEnd := pr.2,
              Protocol := protoNum }

/-- The compiled entry produced by one ICMP/ICMPv6 arm: set rule id,
ICMP type/code and protocol number. -/
def icmpRuleEntry (rule : IngressNodeProtocolRule) (protoNum : Nat) : BpfRuleTypeSt :=
  { zeroRule with
      RuleId := rule.Order, IcmpType := rule.ICMPType, IcmpCode := rule.ICMPCode,
      Protocol := protoNum }

/-- One iteration of the rule-parsing loop of `makeIngressFwRulesMap`,
for a slot that exists: the protocol switch (default case: invalid
protocol error), then the action switch (default case: invalid action
error). -/
def compileRuleEntry (rule : IngressNodeProtocolRule) : Except String BpfRuleTypeSt :=
  let protoEntry : Except String BpfRuleTypeSt :=
    if rule.Protocol == ProtocolTypeTCP then portRuleEntry rule IPPROTO_TCP
    else if rule.Protocol == ProtocolTypeUDP then portRuleEntry rule IPPROTO_UDP
    else if rule.Protocol == ProtocolTypeSCTP then portRuleEntry rule IPPROTO_SCTP
    else if rule.Protocol == ProtocolTypeICMP then .ok (icmpRuleEntry rule IPPROTO_ICMP)
    else if rule.Protocol == ProtocolTypeICMPv6 then .ok (icmpRuleEntry rule IPPROTO_ICMPV6)
    else .error ("Failed invalid protocol " ++ rule.Protocol)
  match protoEntry with
  | .error m => .error m
  | .ok e =>
    if rule.Action == IngressNodeFirewallAllow then .ok { e with Action := xdpAllow }
    else if rule.Action == IngressNodeFirewallDeny then .ok { e with Action := xdpDeny }
    else .error ("Failed invalid action " ++ rule.Action)

/-- Result of the rule-parsing loop: the filled rule array, an error
return, or a runtime panic. -/
inductive RulesLoopRes where
  | ok (arr : List BpfRuleTypeSt)
  | err (msg : String)
  | panicked (msg : String)
deriving DecidableEq

/-- The rule-parsing loop (`for idx, rule := range ...`): each
iteration first writes into `rules.Rules[idx]` — a runtime panic when
`idx` is beyond the array capacity — and otherwise compiles the entry
into slot `idx`, stopping with an error return on the first bad rule. -/
def compileRulesLoop :
    List IngressNodeProtocolRule → Nat → List BpfRuleTypeSt → RulesLoopRes
  | [], _, acc => .ok acc
  | rule :: rest, idx, acc =>
    if idx < acc.length then
      match compileRuleEntry rule with
      | .error m => .err m
      | .ok e => compileRulesLoop rest (idx + 1) (acc.set idx e)
    else .panicked outOfRangeMsg

/-- The Map Store contents: association list from LPM key to rule
value, modelling the kernel-resident `IngressNodeFirewallTableMap`. -/
abbrev MapStore : Type := List (BpfLpmIpKeySt × BpfRulesValSt)

/-- `Map.Update(key, rules, ebpf.UpdateAny)`: replace-or-insert. -/
def mapUpdate (m : MapStore) (k : BpfLpmIpKeySt) (v : BpfRulesValSt) : MapStore :=
  if m.any (fun kv => kv.1 == k) then
    m.map (fun kv => if kv.1 == k then (k, v) else kv)
  else m ++ [(k, v)]

/-- `Map.Delete(key)`: removal, failing (`none`) on a missing key as
the kernel map does. -/
def mapDelete (m : MapStore) (k : BpfLpmIpKeySt) : Option MapStore :=
  if m.any (fun kv => kv.1 == k) then
    some (m.filter (fun kv => !(kv.1 == k)))
  else none

/-- One Map Store mutation, reified for the effect trace. -/
inductive MapOp where
  | upserted (k : BpfLpmIpKeySt) (v : BpfRulesValSt)
  | deleted (k : BpfLpmIpKeySt)
deriving DecidableEq

/-- Environment for the CIDR loop: the Go standard library's
`net.ParseCIDR`, abstracted as an oracle returning the address bytes to
copy (4 for an IPv4 address via `ip.To4()`, 16 otherwise) and the mask
size, or `none` for a parse error. -/
structure CidrEnv where
  parseCIDR : String → Option (List Nat × Nat)

/-- Go's `copy(dst, src)` on byte slices: overwrite the first
`min |src| |dst|` entries of `dst` with those of `src`. -/
def goCopy (dst src : List Nat) : List Nat :=
  src.take dst.length ++ dst.drop (min src.length dst.length)

/-- Result of a compile call: termination status, final Map Store
contents, and the trace of Map Store mutations performed. -/
structure CompileResult where
  outcome : GoOutcome
  map : MapStore
  ops : List MapOp
deriving DecidableEq

/-- The CIDR loop of `makeIngressFwRulesMap`: for each source CIDR,
parse it (error return aborts the call, keeping mutations already
made), build the key by copying the address bytes into the previous
key's `IpData` (the Go code reuses one `key` variable across
iterations) and setting the prefix length, then delete or upsert. -/
def cidrLoop (env : CidrEnv) (isDelete : Bool) (rules : BpfRulesValSt) :
    List String → BpfLpmIpKeySt → MapStore → List MapOp → CompileResult
  | [], _, m, ops => ⟨.ok, m, ops⟩
  | cidr :: rest, key, m, ops =>
    match env.parseCIDR cidr with
    | none => ⟨.err "Failed to parse SourceCIDRs", m, ops⟩
    | some pr =>
      let key2 : BpfLpmIpKeySt := ⟨pr.2, goCopy key.IpData pr.1⟩
      if isDelete then
        match mapDelete m key2 with
        | none => ⟨.err "Failed Deleting ingress firewall rules", m, ops⟩
        | some m2 => cidrLoop env isDelete rules rest key2 m2 (ops ++ [.deleted key2])
      else
        cidrLoop env isDelete rules rest key2 (mapUpdate m key2 rules)
          (ops ++ [.upserted key2 rules])

/-- `makeIngressFwRulesMap`: compile the protocol rules into the
fixed-capacity array (rule loop), then walk the source CIDRs driving
Map Store deletes or upserts (CIDR loop).  `NumRules` is
`uint32(len(...))`. -/
def makeIngressFwRulesMap (env : CidrEnv) (cfg : IngressNodeFirewallRules)
    (isDelete : Bool) (m : MapStore) : CompileResult :=
  match compileRulesLoop cfg.FirewallProtocolRules 0 (List.replicate maxRules zeroRule) with
  | .err msg => ⟨.err msg, m, []⟩
  | .panicked msg => ⟨.panicked msg, m, []⟩
  | .ok arr =>
    let rules : BpfRulesValSt :=
      ⟨cfg.FirewallProtocolRules.length % 4294967296, arr⟩
    cidrLoop env isDelete rules cfg.SourceCIDRs ⟨0, List.replicate 16 0⟩ m []

/-- Specification-side predicate: whether the action switch rejects
this rule's action value. -/
def actionUnknown (r : IngressNodeProtocolRule) : Bool :=
  !((r.Action == IngressNodeFirewallAllow) || (r.Action == IngressNodeFirewallDeny))

/-- Specification-side predicate: a rule the compiler rejects — an
unknown protocol tag, an unparseable ports text on a port protocol, or
an unknown action value. -/
def ruleBad (r : IngressNodeProtocolRule) : Bool :=
  if (r.Protocol == ProtocolTypeTCP) || (r.Protocol == ProtocolTypeUDP)
      || (r.Protocol == ProtocolTypeSCTP) then
    !(exceptIsOk (parseDstPorts r.Ports.data)) || actionUnknown r
  else if (r.Protocol == ProtocolTypeICMP) || (r.Protocol == ProtocolTypeICMPv6) then
    actionUnknown r
  else true

/-- A well-formed ICMP allow rule, used as concrete test data. -/
def goodIcmpRule : IngressNodeProtocolRule :=
  ⟨1, "ICMP", "", 8, 0, "Allow"⟩

/-- A rule with an unknown protocol tag, used as concrete test data. -/
def badProtoRule : IngressNodeProtocolRule :=
  ⟨7, "GRE", "", 0, 0, "Allow"⟩

/-- A rule set whose only offending rule sits beyond the fixed rule
capacity: `maxRules` well-formed rules followed by one bad rule. -/
def cfgBadBeyondCapacity : IngressNodeFirewallRules :=
  ⟨List.replicate maxRules goodIcmpRule ++ [badProtoRule], []⟩

/-- A rule set of `maxRules + 1` well-formed rules — one more than the
fixed capacity. -/
def cfgOverCapacity : IngressNodeFirewallRules :=
  ⟨List.replicate (maxRules + 1) goodIcmpRule, []⟩

/-- A rule set with a single bad-protocol rule and one source CIDR. -/
def cfgOneBadRule : IngressNodeFirewallRules :=
  ⟨[badProtoRule], ["10.0.0.0/8"]⟩

/-- CIDR oracle that parses nothing. -/
def cidrEnvNone : CidrEnv := ⟨fun _ => none⟩

/-- CIDR oracle understanding exactly "10.0.0.0/8". -/
def cidrEnvV4 : CidrEnv :=
  ⟨fun s => if s = "10.0.0.0/8" then some ([10, 0, 0, 0], 8) else none⟩

/-- A small nonempty Map Store used to exhibit that failed compile
calls leave existing contents untouched. -/
def mapStoreSample : MapStore :=
  [(⟨32, List.replicate 16 0⟩, ⟨0, List.replicate maxRules zeroRule⟩)]

/-! ## Attachment manager (`IngressNodeFwAttach`, `cleanup`) -/

/-- A network interface as resolved by `net.InterfaceByName` /
`net.InterfaceByIndex`: kernel index and name. -/
structure Iface where
  Index : Nat
  Name : String
deriving DecidableEq

/-- The controller's pin directory: `path.Join(bpfFSPath,
"xdp_ingress_node_firewall_process")`, set by `NewIngNodeFwController`
and stored in the `pinPath` field. -/
def pinPath : String := "/sys/fs/bpf/xdp_ingress_node_firewall_process"

/-- In-memory controller state relevant to attachment: the `links`
registry of `IngNodeFwController` (attachment handles, modelled as
numeric ids). -/
structure FwState where
  links : List Nat
deriving DecidableEq

/-- Kernel-facing effects of the attachment manager, reified for the
trace: XDP attach, link pin, link unpin, link close, and closing the
eBPF objects (`objs.Close()`, releasing table/program resources). -/
inductive FwAction where
  | attachedXDP (ifindex : Nat) (l : Nat)
  | pinned (l : Nat) (dir : String)
  | unpinned (l : Nat)
  | closedLink (l : Nat)
  | closedObjs
deriving DecidableEq

/-- Environment for the attachment manager: `net.InterfaceByName`,
`link.AttachXDP` (fresh handle or failure) and `link.Pin` success. -/
structure AttachEnv where
  interfaceByName : String → Option Iface
  attachXDP : Nat → Option Nat
  pin : Nat → String → Bool

/-- The actions performed by `cleanup`: unpin and close every tracked
link in registry order, then close the eBPF objects. -/
def cleanupActions (st : FwState) : List FwAction :=
  (st.links.map (fun l => [FwAction.unpinned l, FwAction.closedLink l])).flatten
    ++ [FwAction.closedObjs]

/-- `cleanup`: the source iterates `infc.links` unpinning and closing
each link, then calls `infc.objs.Close()`; it does not clear the
`links` slice, so the state is returned unchanged. -/
def cleanup (st : FwState) : FwState × List FwAction :=
  (st, cleanupActions st)

/-- Result of one `IngressNodeFwAttach` call: error return (if any),
final controller state, and the trace of kernel-facing actions. -/
structure AttachOutcome where
  result : Option String
  state : FwState
  trace : List FwAction
deriving DecidableEq

/-- `IngressNodeFwAttach`: for each interface name, resolve it via
`net.InterfaceByName` (error return on failure).  On attach
(`isDelete = false`): attach the XDP program (error on failure), pin
the link under `pinPath/<name>_link` (error on failure, with the link
already attached), append the link to the registry, continue.  On
detach (`isDelete = true`): run `cleanup()` for this name and
continue. -/
def ingressNodeFwAttach (env : AttachEnv) :
    FwState → List String → Bool → AttachOutcome
  | st, [], _ => ⟨none, st, []⟩
  | st, ifaceName :: rest, isDelete =>
    match env.interfaceByName ifaceName with
    | none => ⟨some ("lookup network iface " ++ ifaceName), st, []⟩
    | some iface =>
      if isDelete = false then
        match env.attachXDP iface.Index with
        | none => ⟨some "could not attach XDP program", st, []⟩
        | some l =>
          let lPinDir := pinPath ++ "/" ++ ifaceName ++ "_link"
          if env.pin l lPinDir then
            let out := ingressNodeFwAttach env ⟨st.links ++ [l]⟩ rest isDelete
            ⟨out.result, out.state,
              FwAction.attachedXDP iface.Index l :: FwAction.pinned l lPinDir :: out.trace⟩
          else
            ⟨some ("failed to pin link to pinDir " ++ lPinDir), st,
              [FwAction.attachedXDP iface.Index l]⟩
      else
        let out := ingressNodeFwAttach env st rest isDelete
        ⟨out.result, out.state, cleanupActions st ++ out.trace⟩

/-- Whether a trace action attaches a program or creates a pin. -/
def isAttachOrPin : FwAction → Bool
  | .attachedXDP _ _ => true
  | .pinned _ _ => true
  | _ => false

/-- Whether a trace action releases a resource (unpin, link close, or
closing the eBPF objects). -/
def isRelease : FwAction → Bool
  | .unpinned _ => true
  | .closedLink _ => true
  | .closedObjs => true
  | _ => false

/-- Whether a trace performs no attach and creates no pin. -/
def noAttachOrPin (tr : List FwAction) : Bool :=
  tr.all (fun a => !(isAttachOrPin a))

/-- Whether a trace releases nothing. -/
def noRelease (tr : List FwAction) : Bool :=
  tr.all (fun a => !(isRelease a))

/-- Attachment environment where no interface name resolves. -/
def attachEnvNoIfaces : AttachEnv :=
  ⟨fun _ => none, fun _ => none, fun _ _ => false⟩

/-- Attachment environment where every name except "nonexistent0"
resolves, attaching and pinning always succeed. -/
def attachEnvGood : AttachEnv :=
  ⟨fun n => if n = "nonexistent0" then none else some ⟨3, n⟩,
   fun i => some (i + 100), fun _ _ => true⟩

/-- A controller state tracking two attachment handles. -/
def fwStateTwoLinks : FwState := ⟨[11, 12]⟩

/-! ## Event pipeline (`ingressNodeFwEvents` reader loop) -/

/-- One log line emitted by the reader loop: a daemon log line
(`log.Printf`) or an audit line to the events sink
(`eventsLogger.Info`). -/
inductive LogLine where
  | stdLog (msg : String)
  | audit (msg : String)
deriving DecidableEq

/-- A perf ring-buffer record as delivered by `rd.Read()`. -/
structure PerfRecord where
  LostSamples : Nat
  RawSample : List Nat
deriving DecidableEq

/-- Result of the gopacket layer decoders on one raw packet (Ethernet
framing first, then each optional layer looked up independently):
rendered source/destination addresses for IPv4/IPv6, port pairs for
TCP/UDP/SCTP, type/code for ICMPv4/ICMPv6, `none` when the layer is
absent. -/
structure DecodedLayers where
  ipv4 : Option (String × String)
  ipv6 : Option (String × String)
  tcp : Option (Nat × Nat)
  udp : Option (Nat × Nat)
  sctp : Option (Nat × Nat)
  icmpv4 : Option (Nat × Nat)
  icmpv6 : Option (Nat × Nat)
deriving DecidableEq

/-- Environment for the reader loop: `net.InterfaceByIndex` (returning
the interface name) and the gopacket packet decoder. -/
structure EventEnv where
  interfaceByIndex : Nat → Option String
  decodePacket : List Nat → DecodedLayers

/-- `convertXdpActionToString`: Deny renders as "Drop", Allow as
"Allow", anything else as "Invalid action <value>". -/
def convertXdpActionToString (action : Nat) : String :=
  if action = xdpDeny then "Drop"
  else if action = xdpAllow then "Allow"
  else "Invalid action " ++ toString action

/-- The audit line contributed by one optional decoded layer. -/
def optLine {α : Type} (o : Option α) (f : α → String) : List LogLine :=
  match o with
  | none => []
  | some a => [LogLine.audit (f a)]

/-- One iteration of the reader loop for one delivered record: a
nonzero lost-sample count logs the drop and skips decoding; otherwise
decode the header (short read: log and skip), read the raw packet
(short read: log and skip), resolve the interface name (failure: log
and skip), then emit the summary audit line followed by one audit line
per present layer in the fixed source order. -/
def ingressNodeFwEventsStep (env : EventEnv) (r : PerfRecord) : List LogLine :=
  if r.LostSamples ≠ 0 then
    [LogLine.stdLog ("Perf event ring buffer full, dropped "
      ++ toString r.LostSamples ++ " samples")]
  else
    match decodeEventHdr r.RawSample with
    | none => [LogLine.stdLog "Parsing perf event header err"]
    | some hdr =>
      match readEventPacket r.RawSample hdr.PktLength with
      | none => [LogLine.stdLog "Parsing perf event packet header"]
      | some packet =>
        match env.interfaceByIndex hdr.IfId with
        | none => [LogLine.stdLog ("lookup network iface " ++ toString hdr.IfId)]
        | some ifaceName =>
          let d := env.decodePacket packet
          [LogLine.audit ("ruleId " ++ toString hdr.RuleId ++ " action "
            ++ convertXdpActionToString hdr.Action ++ " len "
            ++ toString hdr.PktLength ++ " if " ++ ifaceName ++ "\n")]
          ++ optLine d.ipv4
              (fun p => "\tipv4 src addr " ++ p.1 ++ " dst addr " ++ p.2 ++ "\n")
          ++ optLine d.ipv6
              (fun p => "\tipv6 src addr " ++ p.1 ++ " dst addr " ++ p.2 ++ "\n")
          ++ optLine d.tcp
              (fun p => "\ttcp srcPort " ++ toString p.1 ++ " dstPort " ++ toString p.2 ++ "\n")
          ++ optLine d.udp
              (fun p => "\tudp srcPort " ++ toString p.1 ++ " dstPort " ++ toString p.2 ++ "\n")
          ++ optLine d.sctp
              (fun p => "\tsctp srcPort " ++ toString p.1 ++ " dstPort " ++ toString p.2 ++ "\n")
          ++ optLine d.icmpv4
              (fun p => "\ticmpv4 type " ++ toString p.1 ++ " code " ++ toString p.2 ++ "\n")
          ++ optLine d.icmpv6
              (fun p => "\ticmpv6 type " ++ toString p.1 ++ " code " ++ toString p.2 ++ "\n")

/-- Number of audit (per-packet) lines in a log output. -/
def auditCount (ls : List LogLine) : Nat :=
  (ls.filter (fun l => match l with | .audit _ => true | _ => false)).length

/-- Event environment for the concrete Ethernet+IPv4+TCP scenario:
interface 5 is "eth0"; every packet decodes as IPv4 + TCP. -/
def eventEnvC9 : EventEnv :=
  ⟨fun i => if i = 5 then some "eth0" else none,
   fun _ => ⟨some ("192.168.1.9", "10.0.0.1"), none, some (34000, 443),
     none, none, none, none⟩⟩

/-- A concrete event record: header (ifIndex 5, ruleId 1, action Deny,
pktLength 54) followed by 54 payload bytes. -/
def recordC9 : PerfRecord :=
  ⟨0, [5, 0, 1, 0, 1, 0, 54, 0] ++ List.replicate 54 0⟩

/-! ### Supporting lemmas for `parseDstPorts` -/

theorem all_digits_contains_hyphen_false (s : List Char)
    (h : s.all Char.isDigit = true) : s.contains '-' = false := by
  have hm : '-' ∉ s := by
    intro hmem
    exact absurd (List.all_eq_true.mp h _ hmem) (by decide)
  simp [List.contains, List.elem_eq_mem, hm]

theorem splitAtHyphen_append (a b : List Char)
    (h : a.all Char.isDigit = true) :
    splitAtHyphen (a ++ '-' :: b) = (a, b) := by
  induction a with
  | nil => simp [splitAtHyphen]
  | cons c t ih =>
    simp only [List.all_cons, Bool.and_eq_true] at h
    have hc : ¬ (c = '-') := by
      intro hq
      rw [hq] at h
      exact absurd h.1 (by decide)
    simp [splitAtHyphen, hc, ih h.2]

theorem contains_hyphen_append (a b : List Char) :
    (a ++ '-' :: b).contains '-' = true := by
  have hm : '-' ∈ a ++ '-' :: b :=
    List.mem_append_right _ (List.mem_cons_self _ _)
  simp [List.contains, List.elem_eq_mem, hm]

theorem parseUint16_of_isNum16 (s : List Char) (h : isNum16 s = true) :
    parseUint16 s = some (digitsVal s) := by
  simp only [isNum16, Bool.and_eq_true, decide_eq_true_eq] at h
  have hcond : s ≠ [] ∧ s.all Char.isDigit = true ∧ digitsVal s < 65536 :=
    ⟨h.1.1, h.1.2, Nat.lt_succ_of_le h.2⟩
  rw [parseUint16, if_pos hcond]

theorem isNum16_of_parseUint16 (s : List Char) (v : Nat)
    (h : parseUint16 s = some v) : isNum16 s = true := by
  simp only [parseUint16] at h
  split at h
  · next hc =>
    simp only [isNum16, Bool.and_eq_true, decide_eq_true_eq]
    exact ⟨⟨hc.1, hc.2.1⟩, Nat.lt_succ_iff.mp hc.2.2⟩
  · exact absurd h (by simp)

/-- C2: a hyphen-free decimal integer N with 0 ≤ N ≤ 65535 parses to
(N, 0); a string "N-M" with both parts in-range decimal integers parses
to (N, M); every non-numeric, out-of-range, or malformed-separator
input yields an error. -/
theorem c2_parseDstPorts_spec (s : List Char) :
    (isNum16 s = true → parseDstPorts s = Except.ok (digitsVal s, 0))
  ∧ (∀ a b : List Char, s = a ++ '-' :: b → isNum16 a = true → isNum16 b = true →
        parseDstPorts s = Except.ok (digitsVal a, digitsVal b))
  ∧ (portsTextAccepted s = false → exceptIsOk (parseDstPorts s) = false) := by
  refine ⟨?_, ?_, ?_⟩
  · intro h
    have hdig : s.all Char.isDigit = true := by
      simp only [isNum16, Bool.and_eq_true] at h; exact h.1.2
    have hnc := all_digits_contains_hyphen_false s hdig
    rw [parseDstPorts, if_pos hnc, parseUint16_of_isNum16 s h]
  · intro a b hs ha hb
    subst hs
    have hadig : a.all Char.isDigit = true := by
      simp only [isNum16, Bool.and_eq_true] at ha; exact ha.1.2
    have hc := contains_hyphen_append a b
    have hc' : ¬ ((a ++ '-' :: b).contains '-' = false) := by simp [hc]
    have hsplit := splitAtHyphen_append a b hadig
    rw [parseDstPorts, if_neg hc']
    simp only [hsplit]
    simp [parseUint16_of_isNum16 a ha, parseUint16_of_isNum16 b hb]
  · intro hrej
    have hn : isNum16 s = false := by
      cases hx : isNum16 s with
      | false => rfl
      | true => rw [portsTextAccepted, hx] at hrej; simp at hrej
    unfold parseDstPorts
    by_cases hc : s.contains '-' = false
    · rw [if_pos hc]
      cases hp : parseUint16 s with
      | none => simp [exceptIsOk]
      | some v =>
        exact absurd (isNum16_of_parseUint16 s v hp) (by simp [hn])
    · rw [if_neg hc]
      have hct : s.contains '-' = true := by
        cases hcc : s.contains '-' with
        | false => exact absurd hcc hc
        | true => rfl
      cases hp : parseUint16 (splitAtHyphen s).1 with
      | none => simp [exceptIsOk, hp]
      | some v =>
        cases hq : parseUint16 (splitAtHyphen s).2 with
        | none => simp [exceptIsOk, hp, hq]
        | some w =>
          have h1 := isNum16_of_parseUint16 _ v hp
          have h2 := isNum16_of_parseUint16 _ w hq
          have hacc : portsTextAccepted s = true := by
            rw [portsTextAccepted, hct, h1, h2]; simp
          rw [hacc] at hrej
          exact absurd hrej (by simp)

/-- Witness for C2: the bare port "80", the range "80-443", and the
rejected text "ab". -/
theorem c2_parseDstPorts_spec_witness :
    parseDstPorts ['8', '0'] = Except.ok (80, 0)
  ∧ parseDstPorts ['8', '0', '-', '4', '4', '3'] = Except.ok (80, 443)
  ∧ exceptIsOk (parseDstPorts ['a', 'b']) = false := by
  refine ⟨?_, ?_, ?_⟩
  · have h := (c2_parseDstPorts_spec ['8', '0']).1 (by decide)
    have hv : (digitsVal ['8', '0'], (0 : Nat)) = ((80 : Nat), (0 : Nat)) := by decide
    rw [hv] at h
    exact h
  · have h := (c2_parseDstPorts_spec ['8', '0', '-', '4', '4', '3']).2.1
      ['8', '0'] ['4', '4', '3'] rfl (by decide) (by decide)
    have hv : (digitsVal ['8', '0'], digitsVal ['4', '4', '3']) = ((80 : Nat), (443 : Nat)) := by
      decide
    rw [hv] at h
    exact h
  · exact (c2_parseDstPorts_spec ['a', 'b']).2.2 (by decide)

/-- C1: the event header is decoded little-endian at fixed offsets —
interface index from bytes 0–1, rule id from bytes 2–3, action from
byte 4, packet length from bytes 6–7 with byte 5 as ignored padding —
and exactly `packet length` raw bytes are read from the record after
the 8-byte header (failing when fewer remain). -/
theorem c1_event_header_layout (b0 b1 b2 b3 b4 b5 b6 b7 : Nat) (rest : List Nat) :
    decodeEventHdr (b0 :: b1 :: b2 :: b3 :: b4 :: b5 :: b6 :: b7 :: rest) =
      some ⟨b0 + 256 * b1, b2 + 256 * b3, b4, b6 + 256 * b7⟩
  ∧ (b6 + 256 * b7 ≤ rest.length →
      readEventPacket (b0 :: b1 :: b2 :: b3 :: b4 :: b5 :: b6 :: b7 :: rest)
          (b6 + 256 * b7) = some (rest.take (b6 + 256 * b7))
        ∧ (rest.take (b6 + 256 * b7)).length = b6 + 256 * b7)
  ∧ (rest.length < b6 + 256 * b7 →
      readEventPacket (b0 :: b1 :: b2 :: b3 :: b4 :: b5 :: b6 :: b7 :: rest)
          (b6 + 256 * b7) = none) := by
  refine ⟨rfl, ?_, ?_⟩
  · intro h
    constructor
    · simp [readEventPacket, eventHdrSize, h]
    · simp [List.length_take, Nat.min_eq_left h]
  · intro h
    simp only [readEventPacket, eventHdrSize]
    rw [if_neg]
    simp only [List.drop_succ_cons, List.drop_zero]
    omega

/-- Witness for C1: a concrete 11-byte record with interface index 5,
rule id 1, action 1, packet length 2 and a 3-byte tail. -/
theorem c1_event_header_layout_witness :
    decodeEventHdr [5, 0, 1, 0, 1, 0, 2, 0, 9, 8, 7] = some ⟨5, 1, 1, 2⟩
  ∧ readEventPacket [5, 0, 1, 0, 1, 0, 2, 0, 9, 8, 7] 2 = some [9, 8] := by
  have h := c1_event_header_layout 5 0 1 0 1 0 2 0 [9, 8, 7]
  refine ⟨h.1.trans (by decide), ?_⟩
  have h2 := (h.2.1 (by decide)).1
  exact h2.trans (by decide)

/-! ### Supporting lemmas for the rule compiler -/

theorem exceptIsOk_ok {ε α : Type} (a : α) :
    exceptIsOk (Except.ok a : Except ε α) = true := rfl

theorem exceptIsOk_error {ε α : Type} (m : ε) :
    exceptIsOk (Except.error m : Except ε α) = false := rfl

theorem exceptIsOk_actionSwitch (r : IngressNodeProtocolRule) (eA eD : BpfRuleTypeSt) :
    exceptIsOk
      (if r.Action = IngressNodeFirewallAllow then Except.ok eA
      else if r.Action = IngressNodeFirewallDeny then Except.ok eD
      else Except.error ("Failed invalid action " ++ r.Action))
    = !(actionUnknown r) := by
  unfold actionUnknown
  by_cases ha : r.Action = IngressNodeFirewallAllow
  · simp [exceptIsOk, ha]
  · by_cases hb : r.Action = IngressNodeFirewallDeny
    · simp [exceptIsOk, ha, hb, IngressNodeFirewallAllow, IngressNodeFirewallDeny]
    · simp [exceptIsOk, ha, hb]

theorem exceptIsOk_compileRuleEntry (r : IngressNodeProtocolRule) :
    exceptIsOk (compileRuleEntry r) = !(ruleBad r) := by
  unfold compileRuleEntry ruleBad
  cases h1 : (r.Protocol == ProtocolTypeTCP) with
  | true =>
    cases hp : parseDstPorts r.Ports.data with
    | error m => simp [h1, portRuleEntry, hp, exceptIsOk]
    | ok pr =>
      simp [h1, portRuleEntry, hp, exceptIsOk_ok, exceptIsOk_error,
        exceptIsOk_actionSwitch]
  | false =>
    cases h2 : (r.Protocol == ProtocolTypeUDP) with
    | true =>
      cases hp : parseDstPorts r.Ports.data with
      | error m => simp [h1, h2, portRuleEntry, hp, exceptIsOk]
      | ok pr =>
        simp [h1, h2, portRuleEntry, hp, exceptIsOk_ok, exceptIsOk_error,
          exceptIsOk_actionSwitch]
    | false =>
      cases h3 : (r.Protocol == ProtocolTypeSCTP) with
      | true =>
        cases hp : parseDstPorts r.Ports.data with
        | error m => simp [h1, h2, h3, portRuleEntry, hp, exceptIsOk]
        | ok pr =>
          simp [h1, h2, h3, portRuleEntry, hp, exceptIsOk_ok, exceptIsOk_error,
            exceptIsOk_actionSwitch]
      | false =>
        cases h4 : (r.Protocol == ProtocolTypeICMP) with
        | true => simp [h1, h2, h3, h4, exceptIsOk_actionSwitch]
        | false =>
          cases h5 : (r.Protocol == ProtocolTypeICMPv6) with
          | true => simp [h1, h2, h3, h4, h5, exceptIsOk_actionSwitch]
          | false => simp [h1, h2, h3, h4, h5, exceptIsOk]

theorem compileRulesLoop_err :
    ∀ (rs : List IngressNodeProtocolRule) (idx : Nat) (acc : List BpfRuleTypeSt)
      (i : Nat) (hi : i < rs.length),
      idx + i < acc.length → ruleBad (rs.get ⟨i, hi⟩) = true →
      ∃ msg, compileRulesLoop rs idx acc = .err msg := by
  intro rs
  induction rs with
  | nil => intro idx acc i hi; exact absurd hi (by simp)
  | cons r rest ih =>
    intro idx acc i hi hlen hbad
    have hidx : idx < acc.length := by omega
    simp only [compileRulesLoop]
    rw [if_pos hidx]
    cases hce : compileRuleEntry r with
    | error m => exact ⟨m, by simp⟩
    | ok e =>
      cases i with
      | zero =>
        have hok : exceptIsOk (compileRuleEntry r) = false := by
          rw [exceptIsOk_compileRuleEntry]
          have : ruleBad r = true := by simpa using hbad
          simp [this]
        rw [hce] at hok
        exact absurd hok (by simp [exceptIsOk])
      | succ j =>
        have hj : j < rest.length := by
          simpa using Nat.lt_of_succ_lt_succ hi
        have hbad' : ruleBad (rest.get ⟨j, hj⟩) = true := by
          simpa [List.get_cons_succ] using hbad
        simp only []
        exact ih (idx + 1) (acc.set idx e) j hj
          (by simp [List.length_set]; omega) hbad'

theorem compileRulesLoop_panicked :
    ∀ (rs : List IngressNodeProtocolRule) (idx : Nat) (acc : List BpfRuleTypeSt),
      idx ≤ acc.length →
      acc.length < idx + rs.length →
      (∀ j (hj : j < rs.length), idx + j < acc.length →
        ruleBad (rs.get ⟨j, hj⟩) = false) →
      compileRulesLoop rs idx acc = .panicked outOfRangeMsg := by
  intro rs
  induction rs with
  | nil => intro idx acc hinv hover _; simp at hover; omega
  | cons r rest ih =>
    intro idx acc hinv hover hgood
    simp only [compileRulesLoop]
    by_cases hidx : idx < acc.length
    · rw [if_pos hidx]
      have hr : ruleBad r = false := by
        have := hgood 0 (by simp) (by simpa using hidx)
        simpa using this
      have hok : exceptIsOk (compileRuleEntry r) = true := by
        rw [exceptIsOk_compileRuleEntry, hr]; rfl
      cases hce : compileRuleEntry r with
      | error m => rw [hce] at hok; exact absurd hok (by simp [exceptIsOk])
      | ok e =>
        simp only []
        refine ih (idx + 1) (acc.set idx e) ?_ ?_ ?_
        · simp [List.length_set]; omega
        · simp only [List.length_set, List.length_cons] at hover ⊢; omega
        · intro j hj hlt
          have := hgood (j + 1) (by simpa using Nat.succ_lt_succ hj)
            (by simp only [List.length_set] at hlt; omega)
          simpa [List.get_cons_succ] using this
    · rw [if_neg hidx]

/-- C3 (amended): whenever some rule at an index below the fixed rule
capacity has an unknown protocol tag, an unknown action value, or an
unparseable ports text, the compile call returns an error and performs
no Map Store upsert or delete, leaving the Map Store unchanged.  (As
stated, the claim fails when the only offending rules lie at or beyond
the capacity: the call then panics on the out-of-range array write
before reaching them, rather than returning an error — see the
counterexample.) -/
theorem c3_compile_error_no_mutation (env : CidrEnv)
    (cfg : IngressNodeFirewallRules) (isDelete : Bool) (m : MapStore)
    (h : ∃ i, ∃ hi : i < cfg.FirewallProtocolRules.length, i < maxRules ∧
        ruleBad (cfg.FirewallProtocolRules.get ⟨i, hi⟩) = true) :
    (makeIngressFwRulesMap env cfg isDelete m).outcome.isErrB = true
  ∧ (makeIngressFwRulesMap env cfg isDelete m).map = m
  ∧ (makeIngressFwRulesMap env cfg isDelete m).ops = [] := by
  obtain ⟨i, hi, hcap, hbad⟩ := h
  obtain ⟨msg, hloop⟩ := compileRulesLoop_err cfg.FirewallProtocolRules 0
    (List.replicate maxRules zeroRule) i hi (by simpa using hcap) hbad
  simp [makeIngressFwRulesMap, hloop, GoOutcome.isErrB]

set_option maxRecDepth 20000 in
/-- C3 counterexample: a rule set of `maxRules` well-formed rules
followed by one unknown-protocol rule.  The claim says this compile
call returns an error; instead it panics on the out-of-range array
write at index `maxRules` (and performs no Map Store mutation). -/
theorem c3_counterexample_panic_not_error :
    makeIngressFwRulesMap cidrEnvNone cfgBadBeyondCapacity false [] =
      ⟨GoOutcome.panicked outOfRangeMsg, [], []⟩ := by
  rfl

/-- Witness for C3 (amended): one unknown-protocol rule with a parsable
CIDR present and a nonempty Map Store — the call errors and the store
and mutation trace are untouched. -/
theorem c3_compile_error_no_mutation_witness :
    (makeIngressFwRulesMap cidrEnvV4 cfgOneBadRule false mapStoreSample).outcome.isErrB = true
  ∧ (makeIngressFwRulesMap cidrEnvV4 cfgOneBadRule false mapStoreSample).map = mapStoreSample
  ∧ (makeIngressFwRulesMap cidrEnvV4 cfgOneBadRule false mapStoreSample).ops = [] :=
  c3_compile_error_no_mutation cidrEnvV4 cfgOneBadRule false mapStoreSample
    ⟨0, by decide, by decide, by decide⟩

/-- C4 (amended): a rule set with more rules than the fixed capacity,
all of whose first `maxRules` rules are well formed, makes the compile
call panic with the out-of-range fault at the first over-capacity
write — it neither truncates the rule list nor returns an ordinary
error, and no Map Store mutation happens. -/
theorem c4_compile_over_capacity_panics (env : CidrEnv)
    (cfg : IngressNodeFirewallRules) (isDelete : Bool) (m : MapStore)
    (hlen : maxRules < cfg.FirewallProtocolRules.length)
    (hgood : ∀ j (hj : j < cfg.FirewallProtocolRules.length), j < maxRules →
        ruleBad (cfg.FirewallProtocolRules.get ⟨j, hj⟩) = false) :
    (makeIngressFwRulesMap env cfg isDelete m).outcome = .panicked outOfRangeMsg
  ∧ (makeIngressFwRulesMap env cfg isDelete m).map = m
  ∧ (makeIngressFwRulesMap env cfg isDelete m).ops = [] := by
  have hloop := compileRulesLoop_panicked cfg.FirewallProtocolRules 0
    (List.replicate maxRules zeroRule) (by simp)
    (by simpa using hlen)
    (fun j hj hlt => hgood j hj (by simpa using hlt))
  simp [makeIngressFwRulesMap, hloop]

set_option maxRecDepth 20000 in
/-- C4 counterexample: `maxRules + 1` well-formed rules.  The claim
says the compile call silently truncates to the capacity; instead it
panics with the out-of-range fault (no truncated value is written). -/
theorem c4_counterexample_no_truncation :
    makeIngressFwRulesMap cidrEnvNone cfgOverCapacity false [] =
      ⟨GoOutcome.panicked outOfRangeMsg, [], []⟩ := by
  rfl

/-- Witness for C4 (amended) at the concrete over-capacity rule set. -/
theorem c4_compile_over_capacity_panics_witness :
    (makeIngressFwRulesMap cidrEnvNone cfgOverCapacity false mapStoreSample).outcome =
      GoOutcome.panicked outOfRangeMsg
  ∧ (makeIngressFwRulesMap cidrEnvNone cfgOverCapacity false mapStoreSample).map =
      mapStoreSample
  ∧ (makeIngressFwRulesMap cidrEnvNone cfgOverCapacity false mapStoreSample).ops = [] := by
  refine c4_compile_over_capacity_panics cidrEnvNone cfgOverCapacity false
    mapStoreSample (by decide) ?_
  intro j hj hlt
  have hrep : cfgOverCapacity.FirewallProtocolRules.get ⟨j, hj⟩ = goodIcmpRule := by
    rw [List.get_eq_getElem]
    exact List.getElem_replicate goodIcmpRule hj
  rw [hrep]
  decide

/-! ### Supporting lemmas for the attachment manager -/

theorem mem_cleanupActions (st : FwState) (l : Nat) (h : l ∈ st.links) :
    FwAction.unpinned l ∈ cleanupActions st
  ∧ FwAction.closedLink l ∈ cleanupActions st := by
  unfold cleanupActions
  constructor
  · refine List.mem_append_left _ ?_
    rw [List.mem_flatten]
    exact ⟨[FwAction.unpinned l, FwAction.closedLink l],
      List.mem_map_of_mem _ h, by simp⟩
  · refine List.mem_append_left _ ?_
    rw [List.mem_flatten]
    exact ⟨[FwAction.unpinned l, FwAction.closedLink l],
      List.mem_map_of_mem _ h, by simp⟩

theorem closedObjs_mem_cleanupActions (st : FwState) :
    FwAction.closedObjs ∈ cleanupActions st := by
  unfold cleanupActions
  exact List.mem_append_right _ (by simp)

theorem noAttachOrPin_flatten_links (ls : List Nat) :
    ((ls.map (fun l => [FwAction.unpinned l, FwAction.closedLink l])).flatten).all
      (fun a => !(isAttachOrPin a)) = true := by
  induction ls with
  | nil => rfl
  | cons l t ih => simp [isAttachOrPin, ih]

theorem noAttachOrPin_cleanupActions (st : FwState) :
    noAttachOrPin (cleanupActions st) = true := by
  unfold noAttachOrPin cleanupActions
  rw [List.all_append]
  simp [noAttachOrPin_flatten_links st.links, isAttachOrPin]

theorem attach_delete_unresolvable_errors (env : AttachEnv) (st : FwState) :
    ∀ (pre : List String) (bad : String) (rest : List String),
      (∀ n ∈ pre, (env.interfaceByName n).isSome = true) →
      env.interfaceByName bad = none →
      (ingressNodeFwAttach env st (pre ++ bad :: rest) true).result.isSome = true := by
  intro pre
  induction pre with
  | nil =>
    intro bad rest _ hbad
    simp [ingressNodeFwAttach, hbad]
  | cons p pre ih =>
    intro bad rest hres hbad
    have hp : (env.interfaceByName p).isSome = true := hres p (by simp)
    cases hn : env.interfaceByName p with
    | none => rw [hn] at hp; exact absurd hp (by simp)
    | some ifc =>
      simp only [List.cons_append, ingressNodeFwAttach, hn]
      rw [if_neg (by simp)]
      exact ih bad rest (fun n hm => hres n (by simp [hm])) hbad

/-- C6: a detach call (isDelete = true) whose names all resolve
returns no error, leaves the registry untouched, and its kernel-facing
trace is one full-cleanup block per name — every tracked attachment is
unpinned and closed and the table/program resources are released
(provided at least one name is given), never a selective detach of
only the named interfaces. -/
theorem c6_detach_invokes_full_cleanup (env : AttachEnv) (st : FwState)
    (names : List String)
    (hres : ∀ n ∈ names, (env.interfaceByName n).isSome = true) :
    (ingressNodeFwAttach env st names true).result = none
  ∧ (ingressNodeFwAttach env st names true).state = st
  ∧ (ingressNodeFwAttach env st names true).trace =
      (names.map (fun _ => cleanupActions st)).flatten
  ∧ (names ≠ [] → ∀ l ∈ st.links,
      FwAction.unpinned l ∈ (ingressNodeFwAttach env st names true).trace
      ∧ FwAction.closedLink l ∈ (ingressNodeFwAttach env st names true).trace)
  ∧ (names ≠ [] →
      FwAction.closedObjs ∈ (ingressNodeFwAttach env st names true).trace) := by
  induction names with
  | nil => exact ⟨rfl, rfl, rfl, by simp, by simp⟩
  | cons n rest ih =>
    have hn : (env.interfaceByName n).isSome = true := hres n (by simp)
    cases he : env.interfaceByName n with
    | none => rw [he] at hn; exact absurd hn (by simp)
    | some ifc =>
      obtain ⟨ih1, ih2, ih3, _, _⟩ := ih (fun m hm => hres m (by simp [hm]))
      have hstep : ingressNodeFwAttach env st (n :: rest) true =
          ⟨(ingressNodeFwAttach env st rest true).result,
           (ingressNodeFwAttach env st rest true).state,
           cleanupActions st ++ (ingressNodeFwAttach env st rest true).trace⟩ := by
        simp only [ingressNodeFwAttach, he]
        rw [if_neg (by simp)]
      refine ⟨by rw [hstep]; exact ih1, by rw [hstep]; exact ih2, ?_, ?_, ?_⟩
      · rw [hstep]
        simp only [List.map_cons, List.flatten_cons, ih3]
      · intro _ l hl
        rw [hstep]
        exact ⟨List.mem_append_left _ (mem_cleanupActions st l hl).1,
               List.mem_append_left _ (mem_cleanupActions st l hl).2⟩
      · intro _
        rw [hstep]
        exact List.mem_append_left _ (closedObjs_mem_cleanupActions st)

/-- Witness for C6: detaching with one resolvable name from a state
tracking two links — the trace is exactly one full cleanup block over
both tracked links plus the objects close. -/
theorem c6_detach_invokes_full_cleanup_witness :
    (ingressNodeFwAttach attachEnvGood fwStateTwoLinks ["eth0"] true).result = none
  ∧ (ingressNodeFwAttach attachEnvGood fwStateTwoLinks ["eth0"] true).state = fwStateTwoLinks
  ∧ (ingressNodeFwAttach attachEnvGood fwStateTwoLinks ["eth0"] true).trace =
      [FwAction.unpinned 11, FwAction.closedLink 11, FwAction.unpinned 12,
       FwAction.closedLink 12, FwAction.closedObjs] := by
  have h := c6_detach_invokes_full_cleanup attachEnvGood fwStateTwoLinks ["eth0"]
    (by intro n hn; simp at hn; subst hn; decide)
  exact ⟨h.1, h.2.1, h.2.2.1.trans (by decide)⟩

/-- C10: on the detach path every call leaves the registry untouched
and its trace attaches no program and creates no pin; and when the name
list decomposes as resolvable names followed by an unresolvable one,
the call returns an error — each name is resolved even though the
detach path never uses the index. -/
theorem c10_detach_resolves_no_attach (env : AttachEnv) (st : FwState)
    (names : List String) :
    (ingressNodeFwAttach env st names true).state = st
  ∧ noAttachOrPin (ingressNodeFwAttach env st names true).trace = true
  ∧ (∀ (pre : List String) (bad : String) (rest : List String),
      names = pre ++ bad :: rest →
      (∀ n ∈ pre, (env.interfaceByName n).isSome = true) →
      env.interfaceByName bad = none →
      (ingressNodeFwAttach env st names true).result.isSome = true) := by
  refine ⟨?_, ?_, ?_⟩
  · induction names with
    | nil => rfl
    | cons n rest ih =>
      cases he : env.interfaceByName n with
      | none => simp [ingressNodeFwAttach, he]
      | some ifc =>
        simp only [ingressNodeFwAttach, he]
        rw [if_neg (by simp)]
        exact ih
  · induction names with
    | nil => rfl
    | cons n rest ih =>
      cases he : env.interfaceByName n with
      | none => simp [ingressNodeFwAttach, he, noAttachOrPin]
      | some ifc =>
        simp only [ingressNodeFwAttach, he]
        rw [if_neg (by simp)]
        have hc := noAttachOrPin_cleanupActions st
        simp only [noAttachOrPin] at hc ih ⊢
        rw [List.all_append, hc, ih]
        rfl
  · intro pre bad rest hsplit hres hbad
    subst hsplit
    exact attach_delete_unresolvable_errors env st pre bad rest hres hbad

/-- Witness for C10: detach over ["eth0", "nonexistent0"] errors (the
unresolvable second name is still resolved), leaves the registry
untouched, and neither attaches nor pins. -/
theorem c10_detach_resolves_no_attach_witness :
    (ingressNodeFwAttach attachEnvGood fwStateTwoLinks ["eth0", "nonexistent0"] true).state
      = fwStateTwoLinks
  ∧ noAttachOrPin
      (ingressNodeFwAttach attachEnvGood fwStateTwoLinks ["eth0", "nonexistent0"] true).trace
      = true
  ∧ (ingressNodeFwAttach attachEnvGood fwStateTwoLinks
      ["eth0", "nonexistent0"] true).result.isSome = true := by
  have h := c10_detach_resolves_no_attach attachEnvGood fwStateTwoLinks
    ["eth0", "nonexistent0"]
  refine ⟨h.1, h.2.1, ?_⟩
  exact h.2.2 ["eth0"] "nonexistent0" [] rfl
    (by intro n hn; simp at hn; subst hn; decide) (by decide)

/-- C5: an attach call (isDelete = false) whose first names all
resolve, attach and pin successfully and whose next name fails to
resolve returns an error at that name; the interfaces attached earlier
in the same call stay attached and registered (the registry grows by
exactly one link per earlier name, keeping the old links as its front,
and the trace releases nothing — no rollback). -/
theorem c5_attach_error_no_rollback (env : AttachEnv) (st : FwState)
    (pre : List String) (bad : String) (rest : List String)
    (hpre : ∀ n ∈ pre, ∃ ifc l, env.interfaceByName n = some ifc
      ∧ env.attachXDP ifc.Index = some l
      ∧ env.pin l (pinPath ++ "/" ++ n ++ "_link") = true)
    (hbad : env.interfaceByName bad = none) :
    (ingressNodeFwAttach env st (pre ++ bad :: rest) false).result.isSome = true
  ∧ (ingressNodeFwAttach env st (pre ++ bad :: rest) false).state.links.take
      st.links.length = st.links
  ∧ (ingressNodeFwAttach env st (pre ++ bad :: rest) false).state.links.length
      = st.links.length + pre.length
  ∧ noRelease (ingressNodeFwAttach env st (pre ++ bad :: rest) false).trace = true := by
  induction pre generalizing st with
  | nil =>
    refine ⟨?_, ?_, ?_, ?_⟩ <;> simp [ingressNodeFwAttach, hbad, noRelease, List.take_length]
  | cons p pre ih =>
    obtain ⟨ifc, l, h1, h2, h3⟩ := hpre p (by simp)
    have hstep : ingressNodeFwAttach env st ((p :: pre) ++ bad :: rest) false =
        ⟨(ingressNodeFwAttach env ⟨st.links ++ [l]⟩ (pre ++ bad :: rest) false).result,
         (ingressNodeFwAttach env ⟨st.links ++ [l]⟩ (pre ++ bad :: rest) false).state,
         FwAction.attachedXDP ifc.Index l
           :: FwAction.pinned l (pinPath ++ "/" ++ p ++ "_link")
           :: (ingressNodeFwAttach env ⟨st.links ++ [l]⟩ (pre ++ bad :: rest) false).trace⟩ := by
      simp [ingressNodeFwAttach, h1, h2, h3]
    obtain ⟨ih1, ih2, ih3, ih4⟩ :=
      ih ⟨st.links ++ [l]⟩ (fun n hm => hpre n (by simp [hm]))
    have ih2' : List.take (st.links.length + 1)
        (ingressNodeFwAttach env ⟨st.links ++ [l]⟩ (pre ++ bad :: rest)
          false).state.links = st.links ++ [l] := by
      simpa using ih2
    refine ⟨by rw [hstep]; exact ih1, ?_, ?_, ?_⟩
    · rw [hstep]
      have h6 := congrArg (List.take st.links.length) ih2'
      rw [List.take_take] at h6
      have hmin : min st.links.length (st.links.length + 1) = st.links.length := by
        omega
      rw [hmin] at h6
      rw [h6]
      exact List.take_left st.links [l]
    · rw [hstep]
      rw [ih3]
      simp [Nat.add_assoc, Nat.add_comm 1 pre.length]
    · rw [hstep]
      simp only [noRelease] at ih4 ⊢
      rw [List.all_cons, List.all_cons, ih4]
      rfl

/-- Witness for C5: the spec scenario — attaching ["nonexistent0"]
from an empty registry errors and the registry stays empty. -/
theorem c5_attach_error_no_rollback_witness :
    (ingressNodeFwAttach attachEnvGood ⟨[]⟩ ["nonexistent0"] false).result.isSome = true
  ∧ (ingressNodeFwAttach attachEnvGood ⟨[]⟩ ["nonexistent0"] false).state.links.length = 0 := by
  have h := c5_attach_error_no_rollback attachEnvGood ⟨[]⟩ [] "nonexistent0" []
    (by intro n hn; simp at hn) (by decide)
  exact ⟨h.1, by have := h.2.2.1; simpa using this⟩

/-- C7 (amended): calling `cleanup` with an empty attachment registry
unpins and closes no links and leaves the controller state unchanged,
but it is not a complete no-op: it still closes the eBPF objects,
releasing the table/program resources (`objs.Close()` runs
unconditionally). -/
theorem c7_cleanup_empty_registry (st : FwState) (h : st.links = []) :
    cleanup st = (st, [FwAction.closedObjs]) := by
  simp [cleanup, cleanupActions, h]

/-- C7 counterexample: with an empty registry, `cleanup` still
performs a release action (closing the eBPF objects), so it is not a
no-op that releases nothing. -/
theorem c7_counterexample_objs_closed :
    ((cleanup ⟨[]⟩).2.any (fun a => isRelease a)) = true := by
  decide

/-- Witness for C7 (amended) at the empty registry. -/
theorem c7_cleanup_empty_registry_witness :
    cleanup ⟨[]⟩ = (⟨[]⟩, [FwAction.closedObjs]) :=
  c7_cleanup_empty_registry ⟨[]⟩ rfl

/-! ### Event pipeline theorems -/

/-- C8: a record with a nonzero lost-sample count produces exactly the
one dropped-samples log line and zero per-packet audit lines; the
record is not decoded. -/
theorem c8_lost_samples_single_log (env : EventEnv) (r : PerfRecord)
    (h : r.LostSamples ≠ 0) :
    ingressNodeFwEventsStep env r =
      [LogLine.stdLog ("Perf event ring buffer full, dropped "
        ++ toString r.LostSamples ++ " samples")]
  ∧ auditCount (ingressNodeFwEventsStep env r) = 0 := by
  constructor
  · simp [ingressNodeFwEventsStep, h]
  · simp [ingressNodeFwEventsStep, h, auditCount]

/-- Witness for C8: a record reporting 7 lost samples. -/
theorem c8_lost_samples_single_log_witness :
    ingressNodeFwEventsStep eventEnvC9 ⟨7, []⟩ =
      [LogLine.stdLog "Perf event ring buffer full, dropped 7 samples"]
  ∧ auditCount (ingressNodeFwEventsStep eventEnvC9 ⟨7, []⟩) = 0 := by
  have h := c8_lost_samples_single_log eventEnvC9 ⟨7, []⟩ (by decide)
  exact ⟨h.1.trans (by decide), h.2⟩

/-- C9: an event record with a decodable header whose payload decodes
as Ethernet framing carrying exactly IPv4 and TCP produces exactly
three audit lines in order: the summary line, the IPv4 address line,
and the TCP port line. -/
theorem c9_ipv4_tcp_three_lines (env : EventEnv) (r : PerfRecord)
    (hdr : BpfEventHdrSt) (packet : List Nat) (name : String)
    (srcdst : String × String) (ports : Nat × Nat)
    (h0 : r.LostSamples = 0)
    (h1 : decodeEventHdr r.RawSample = some hdr)
    (h2 : readEventPacket r.RawSample hdr.PktLength = some packet)
    (h3 : env.interfaceByIndex hdr.IfId = some name)
    (h4 : env.decodePacket packet =
      ⟨some srcdst, none, some ports, none, none, none, none⟩) :
    ingressNodeFwEventsStep env r =
      [LogLine.audit ("ruleId " ++ toString hdr.RuleId ++ " action "
        ++ convertXdpActionToString hdr.Action ++ " len "
        ++ toString hdr.PktLength ++ " if " ++ name ++ "\n"),
       LogLine.audit ("\tipv4 src addr " ++ srcdst.1 ++ " dst addr "
        ++ srcdst.2 ++ "\n"),
       LogLine.audit ("\ttcp srcPort " ++ toString ports.1 ++ " dstPort "
        ++ toString ports.2 ++ "\n")] := by
  simp [ingressNodeFwEventsStep, h0, h1, h2, h3, h4, optLine]

/-- Witness for C9: the spec scenario — header (ifIndex 5, ruleId 1,
action Deny, pktLength 54) with an IPv4+TCP payload gives the summary
line, the IPv4 line, and the TCP line, in that order. -/
theorem c9_ipv4_tcp_three_lines_witness :
    ingressNodeFwEventsStep eventEnvC9 recordC9 =
      [LogLine.audit "ruleId 1 action Drop len 54 if eth0\n",
       LogLine.audit "\tipv4 src addr 192.168.1.9 dst addr 10.0.0.1\n",
       LogLine.audit "\ttcp srcPort 34000 dstPort 443\n"] := by
  have h := c9_ipv4_tcp_three_lines eventEnvC9 recordC9
    ⟨5, 1, 1, 54⟩ (List.replicate 54 0) "eth0" ("192.168.1.9", "10.0.0.1")
    (34000, 443) (by decide) (by decide) (by decide) (by decide) (by decide)
  exact h.trans (by decide)

end NodeFw
